import Mathlib

/-!
Verification of the polymorphic logging demo (src/cpp/inheritance.cpp).

The program has two logger backends behind one interface:
InMemoryLogger stores messages in a vector; LocalLogger writes each
message followed by a newline to a backing file (flushing after every
write) and reconstructs the message list by re-reading the file
line-by-line with getline. A harness appends a fixed test set to every
logger (messages outer loop, loggers inner loop) and then compares each
logger's read-back against the test set, exiting 1 with a diagnostic on
the first mismatch and 0 otherwise.

Messages are modelled as character lists; a file is modelled by its
character content (or none when the file cannot be opened for reading).
-/

set_option maxHeartbeats 1000000

namespace Inheritance

/-- A log message, modelled by its character sequence. -/
abbrev Msg := List Char

/-! ### InMemoryLogger -/

/-- InMemoryLogger state: the vector of stored messages. -/
structure InMemoryLogger where
  messages : List Msg
deriving DecidableEq

/-- The default constructor: the vector starts empty. -/
def InMemoryLogger.init : InMemoryLogger := ⟨[]⟩

/-- InMemoryLogger::Log pushes the message onto the back of the vector. -/
def InMemoryLogger.Log (l : InMemoryLogger) (mesg : Msg) : InMemoryLogger :=
  ⟨l.messages ++ [mesg]⟩

/-- InMemoryLogger::Messages returns a copy of the stored vector. -/
def InMemoryLogger.Messages (l : InMemoryLogger) : List Msg :=
  l.messages

/-- State-passing form of the const member Messages: the returned state
is the receiver, unchanged (the method is const and returns by value). -/
def InMemoryLogger.MessagesSt (l : InMemoryLogger) : List Msg × InMemoryLogger :=
  (l.Messages, l)

/-! ### LocalLogger -/

/-- LocalLogger state: the stored filename and the current content of
the backing file (the open write handle appends to this content). -/
structure LocalLogger where
  filename : String
  file : List Char
deriving DecidableEq

/-- Outcome of the LocalLogger constructor: either a usable logger, or
fatal process termination with an exit code and a stderr diagnostic. -/
inductive ConstructResult where
  | ok (l : LocalLogger)
  | fatal (code : Nat) (diag : String)
deriving DecidableEq

set_option linter.unusedVariables false

/-- LocalLogger::LocalLogger: opens the file with fstream::out, which
creates or truncates it, so on success the content is empty whatever the
prior content was; if the open fails it prints a diagnostic naming the
file to cerr and calls exit(1). -/
def LocalLogger.construct (openOk : Bool) (path : String)
    (prior : Option (List Char)) : ConstructResult :=
  if openOk then ConstructResult.ok { filename := path, file := [] }
  else ConstructResult.fatal 1 ("Failed to open file: " ++ path)

/-- LocalLogger::Log writes the message followed by a single newline to
the write handle and flushes, so the file content grows by exactly
mesg ++ newline on every call. -/
def LocalLogger.Log (l : LocalLogger) (mesg : Msg) : LocalLogger :=
  { l with file := l.file ++ mesg ++ ['\n'] }

/-- The getline loop of LocalLogger::Messages: each call to getline
consumes characters up to the next newline (or end of file) and
succeeds as long as the stream is not already exhausted, so an input
ending in a newline yields no extra empty line. -/
def getLines : List Char → List (List Char)
  | [] => []
  | c :: cs =>
    if c = '\n' then [] :: getLines cs
    else
      match getLines cs with
      | [] => [[c]]
      | l :: ls => (c :: l) :: ls

/-- An ifstream: whether the open succeeded, and the readable content. -/
structure IfStream where
  good : Bool
  contents : List Char
deriving DecidableEq

/-- Opening an ifstream on a path: if the file is absent or unreadable
the stream is failed and empty, otherwise it holds the file content. -/
def openIfStream : Option (List Char) → IfStream
  | none => { good := false, contents := [] }
  | some cs => { good := true, contents := cs }

/-- Running the getline loop over an ifstream: on a failed stream the
first getline fails and the loop body runs zero times. -/
def getlineAll (s : IfStream) : List Msg :=
  if s.good then getLines s.contents else []

/-- LocalLogger::Messages as a function of what opening the filename for
reading yields at call time. -/
def LocalLogger.MessagesOf (avail : Option (List Char)) : List Msg :=
  getlineAll (openIfStream avail)

/-- LocalLogger::Messages in the normal case where the backing file
exists with the logger's recorded content. -/
def LocalLogger.Messages (l : LocalLogger) : List Msg :=
  LocalLogger.MessagesOf (some l.file)

/-- State-passing form of the const member Messages: the read goes
through a fresh local ifstream, so the returned state is the receiver
unchanged (filename, write handle and file content untouched). -/
def LocalLogger.MessagesSt (l : LocalLogger) : List Msg × LocalLogger :=
  (l.Messages, l)

/-! ### Polymorphic sinks and the harness -/

/-- A sink held through the LoggerInterface base pointer. -/
inductive Sink where
  | mem (l : InMemoryLogger)
  | file (l : LocalLogger)
deriving DecidableEq

/-- Virtual dispatch of Log. -/
def Sink.Log : Sink → Msg → Sink
  | Sink.mem l, m => Sink.mem (l.Log m)
  | Sink.file l, m => Sink.file (l.Log m)

/-- Virtual dispatch of Messages. -/
def Sink.Messages : Sink → List Msg
  | Sink.mem l => l.Messages
  | Sink.file l => l.Messages

/-- State-passing form of the const virtual Messages. -/
def Sink.MessagesSt (s : Sink) : List Msg × Sink :=
  (s.Messages, s)

/-- The append phase of main, instrumented with its event trace: the
outer loop ranges over the messages and the inner loop over the sinks
in collection order, recording (sink index, message) at each Log call. -/
def appendPhaseTr (sinks : List Sink) (msgs : List Msg) :
    List Sink × List (Nat × Msg) :=
  msgs.foldl
    (fun acc m =>
      (acc.1.map (fun s => s.Log m),
       acc.2 ++ (List.range acc.1.length).map (fun i => (i, m))))
    (sinks, [])

/-- A single sink receiving a whole message list in order. -/
def logList (s : Sink) (msgs : List Msg) : Sink :=
  msgs.foldl Sink.Log s

/-- Modelled from the spec: the message-major order of append events
(message i reaches every sink before message i+1 reaches any sink). -/
def messageMajorTrace (nSinks : Nat) (msgs : List Msg) : List (Nat × Msg) :=
  msgs.flatMap (fun m => (List.range nSinks).map (fun i => (i, m)))

/-- The verification phase of main: walk the sinks in order; on the
first mismatching sink print expected and observed to cerr and exit(1);
if all sinks match, fall off the loop and return 0 with no output. The
second component is the reported (expected, observed) pair, if any. -/
def verify : List Sink → List Msg → Nat × Option (List Msg × List Msg)
  | [], _ => (0, none)
  | s :: ss, expected =>
    if s.Messages = expected then verify ss expected
    else (1, some (expected, s.Messages))

/-- The fixed test set of main. -/
def testMessages : List Msg :=
  [String.toList "Hello, World!",
   String.toList "abracadabra",
   String.toList "Sayonara!"]

/-- The sink collection of main after both constructions succeed. -/
def initialSinks : List Sink :=
  [Sink.mem InMemoryLogger.init,
   Sink.file { filename := "/tmp/outfile_cpp.txt", file := [] }]

/-- The whole run of main after successful construction: append the
test set to every sink, then verify each sink against the test set. -/
def runMain : Nat × Option (List Msg × List Msg) :=
  verify (appendPhaseTr initialSinks testMessages).1 testMessages

/-! ### Splitting a message at newlines (spec of the misread case) -/

/-- Modelled from the spec: splitting a character list at each newline,
as a message containing newlines is misread by the line-based reader. -/
def splitNl : List Char → List (List Char)
  | [] => [[]]
  | c :: cs =>
    if c = '\n' then [] :: splitNl cs
    else
      match splitNl cs with
      | [] => [[c]]
      | l :: ls => (c :: l) :: ls

/-- The file content written by appending a message list in order:
each message verbatim followed by one newline. -/
def writeAll (msgs : List Msg) : List Char :=
  (msgs.map (fun m => m ++ ['\n'])).flatten

/-! ### Helper lemmas -/

theorem splitNl_ne_nil (cs : List Char) : splitNl cs ≠ [] := by
  induction cs with
  | nil => simp [splitNl]
  | cons c cs ih =>
    simp only [splitNl]
    split
    · simp
    · cases h : splitNl cs with
      | nil => exact absurd h ih
      | cons l ls => simp

theorem getLines_append_nl (m rest : List Char) :
    getLines (m ++ '\n' :: rest) = splitNl m ++ getLines rest := by
  induction m with
  | nil => simp [getLines, splitNl]
  | cons c cs ih =>
    by_cases hc : c = '\n'
    · subst hc
      simp [getLines, splitNl, ih]
    · cases h : splitNl cs with
      | nil => exact absurd h (splitNl_ne_nil cs)
      | cons l ls =>
        have ihh : getLines (cs ++ '\n' :: rest) = l :: (ls ++ getLines rest) := by
          rw [ih, h]
          rfl
        simp only [List.cons_append, getLines, splitNl, List.append_eq,
          if_neg hc, ihh, h]

theorem splitNl_of_not_mem {m : List Char} (h : '\n' ∉ m) : splitNl m = [m] := by
  induction m with
  | nil => rfl
  | cons c cs ih =>
    simp only [List.mem_cons, not_or] at h
    simp only [splitNl, ih h.2]
    rw [if_neg (fun hc => h.1 hc.symm)]

theorem splitNl_length (m : List Char) :
    (splitNl m).length = m.count '\n' + 1 := by
  induction m with
  | nil => rfl
  | cons c cs ih =>
    by_cases hc : c = '\n'
    · subst hc
      simp [splitNl, List.count_cons, ih]
    · cases h : splitNl cs with
      | nil => exact absurd h (splitNl_ne_nil cs)
      | cons l ls =>
        have h1 : ls.length + 1 = cs.count '\n' + 1 := by
          have h2 := ih
          rw [h] at h2
          simpa using h2
        simp only [splitNl, if_neg hc, h, List.length_cons, List.count_cons]
        rw [if_neg (by simp [hc] : ¬((c == '\n') = true))]
        omega

theorem getLines_writeAll {msgs : List Msg} (h : ∀ m ∈ msgs, '\n' ∉ m) :
    getLines (writeAll msgs) = msgs := by
  induction msgs with
  | nil => rfl
  | cons m ms ih =>
    have hm : '\n' ∉ m := h m (List.mem_cons_self m ms)
    have hms : ∀ x ∈ ms, '\n' ∉ x := fun x hx => h x (List.mem_cons_of_mem m hx)
    have : writeAll (m :: ms) = m ++ '\n' :: writeAll ms := by
      simp [writeAll, List.append_assoc]
    rw [this, getLines_append_nl, splitNl_of_not_mem hm, ih hms]
    rfl

theorem mem_foldl_messages (msgs : List Msg) (l : InMemoryLogger) :
    (msgs.foldl InMemoryLogger.Log l).messages = l.messages ++ msgs := by
  induction msgs generalizing l with
  | nil => simp
  | cons m ms ih => simp [ih, InMemoryLogger.Log]

theorem file_foldl_content (msgs : List Msg) (l : LocalLogger) :
    (msgs.foldl LocalLogger.Log l).file = l.file ++ writeAll msgs ∧
    (msgs.foldl LocalLogger.Log l).filename = l.filename := by
  induction msgs generalizing l with
  | nil => simp [writeAll]
  | cons m ms ih =>
    refine ⟨?_, ?_⟩
    · rw [List.foldl_cons, (ih (l.Log m)).1]
      simp [LocalLogger.Log, writeAll, List.append_assoc]
    · exact (ih (l.Log m)).2

theorem appendPhaseTr_foldl (msgs : List Msg) :
    ∀ (sinks : List Sink) (tr : List (Nat × Msg)),
      msgs.foldl
        (fun acc m =>
          (acc.1.map (fun s => s.Log m),
           acc.2 ++ (List.range acc.1.length).map (fun i => (i, m))))
        (sinks, tr) =
      (sinks.map (fun s => logList s msgs),
       tr ++ messageMajorTrace sinks.length msgs) := by
  induction msgs with
  | nil =>
    intro sinks tr
    simp [logList, messageMajorTrace]
  | cons m ms ih =>
    intro sinks tr
    rw [List.foldl_cons, ih]
    simp [List.map_map, logList, messageMajorTrace, List.append_assoc,
      Function.comp]

theorem verify_eq_zero_iff (sinks : List Sink) (exp : List Msg) :
    verify sinks exp = (0, none) ↔ ∀ s ∈ sinks, s.Messages = exp := by
  induction sinks with
  | nil => simp [verify]
  | cons s ss ih =>
    by_cases h : s.Messages = exp
    · simp [verify, h, ih]
    · simp [verify, h]

theorem verify_mismatch (sinks : List Sink) (exp : List Msg)
    (h : ¬ ∀ s ∈ sinks, s.Messages = exp) :
    (verify sinks exp).1 = 1 ∧
    ∃ obs, (verify sinks exp).2 = some (exp, obs) ∧ obs ≠ exp ∧
      ∃ s ∈ sinks, s.Messages = obs := by
  induction sinks with
  | nil => simp at h
  | cons s ss ih =>
    by_cases hs : s.Messages = exp
    · have h2 : ¬ ∀ x ∈ ss, Sink.Messages x = exp := by
        intro hall
        refine h (fun x hx => ?_)
        rcases List.mem_cons.mp hx with hx1 | hx2
        · rw [hx1, hs]
        · exact hall x hx2
      obtain ⟨hcode, obs, hrep, hne, w, hw, hwm⟩ := ih h2
      refine ⟨?_, obs, ?_, hne, w, List.mem_cons_of_mem s hw, hwm⟩
      · simpa [verify, hs] using hcode
      · simpa [verify, hs] using hrep
    · refine ⟨?_, s.Messages, ?_, hs, s, List.mem_cons_self s ss, rfl⟩
      · simp [verify, hs]
      · simp [verify, hs]

/-! ### Claim theorems -/

/-- C1: Round-trip: appending a message list M in order to a fresh
InMemoryLogger, or to a fresh LocalLogger on a fresh (truncated) backing
file, where no message contains the newline terminator, makes
Messages return exactly M: same length, same elements, same order. -/
theorem C1_round_trip (M : List Msg) (h : ∀ m ∈ M, '\n' ∉ m) :
    (M.foldl InMemoryLogger.Log InMemoryLogger.init).Messages = M ∧
    ∀ path : String,
      (M.foldl LocalLogger.Log { filename := path, file := [] }).Messages
        = M := by
  constructor
  · rw [InMemoryLogger.Messages, mem_foldl_messages]
    rfl
  · intro path
    show getlineAll (openIfStream
      (some (M.foldl LocalLogger.Log { filename := path, file := [] }).file)) = M
    rw [(file_foldl_content M { filename := path, file := [] }).1]
    simpa [getlineAll, openIfStream] using getLines_writeAll h

/-- C1 witness: the concrete test set of main round-trips through both
sink variants. -/
theorem C1_round_trip_witness :
    (∀ m ∈ testMessages, '\n' ∉ m) ∧
    ((testMessages.foldl InMemoryLogger.Log InMemoryLogger.init).Messages
        = testMessages ∧
     ∀ path : String,
       (testMessages.foldl LocalLogger.Log
           { filename := path, file := [] }).Messages = testMessages) :=
  ⟨by decide, C1_round_trip testMessages (by decide)⟩

/-- C2: constructing a LocalLogger on a path that cannot be opened for
writing is fatal: the process exits with code 1 (non-zero) after the
diagnostic naming the failed path, and no usable logger is returned,
whatever the prior file content; there is no retry or fallback. -/
theorem C2_construct_fail (path : String) (prior : Option (List Char)) :
    LocalLogger.construct false path prior
      = ConstructResult.fatal 1 ("Failed to open file: " ++ path) := rfl

/-- C3: the verification phase exits 0 and reports nothing exactly when
every sink's read-back equals the expected sequence; when some sink
differs, it exits 1 and reports the expected sequence together with the
observed sequence of a mismatching sink. -/
theorem C3_verify (sinks : List Sink) (exp : List Msg) :
    (verify sinks exp = (0, none) ↔ ∀ s ∈ sinks, s.Messages = exp) ∧
    ((¬ ∀ s ∈ sinks, s.Messages = exp) →
      (verify sinks exp).1 = 1 ∧
      ∃ obs, (verify sinks exp).2 = some (exp, obs) ∧ obs ≠ exp ∧
        ∃ s ∈ sinks, s.Messages = obs) :=
  ⟨verify_eq_zero_iff sinks exp, verify_mismatch sinks exp⟩

/-- C3 witness: a sink that recorded nothing mismatches the test set,
and verification then exits with status 1. -/
theorem C3_verify_witness :
    (verify [Sink.mem InMemoryLogger.init] testMessages).1 = 1 :=
  ((C3_verify [Sink.mem InMemoryLogger.init] testMessages).2 (by decide)).1

/-- C4: calling Messages twice in a row with no intervening append
returns identical sequences both times, for either sink variant in any
reachable state. -/
theorem C4_idempotent_read (s : Sink) :
    (Sink.MessagesSt s).1 = (Sink.MessagesSt (Sink.MessagesSt s).2).1 ∧
    Sink.MessagesSt (Sink.MessagesSt s).2 = Sink.MessagesSt s :=
  ⟨rfl, rfl⟩

/-- C5: each Log call writes exactly the message followed by one newline
through the write handle, visible in the file content as soon as the
call returns (write-through, no batching), so after any append sequence
from a fresh file the content is the newline-delimited concatenation of
the messages in append order. -/
theorem C5_append_writes (l : LocalLogger) (m : Msg) (M : List Msg)
    (path : String) :
    (l.Log m).file = l.file ++ m ++ ['\n'] ∧
    (l.Log m).filename = l.filename ∧
    (M.foldl LocalLogger.Log { filename := path, file := [] }).file
      = writeAll M := by
  refine ⟨rfl, rfl, ?_⟩
  simpa using (file_foldl_content M { filename := path, file := [] }).1

/-- C6: successful construction truncates the backing file regardless of
its prior content, so a fresh LocalLogger reads back the empty sequence
before any append, and a fresh InMemoryLogger starts with empty
storage. -/
theorem C6_fresh_empty (path : String) (prior : Option (List Char)) :
    LocalLogger.construct true path prior
        = ConstructResult.ok { filename := path, file := [] } ∧
    LocalLogger.Messages { filename := path, file := [] } = [] ∧
    InMemoryLogger.init.messages = [] ∧
    InMemoryLogger.init.Messages = [] :=
  ⟨rfl, rfl, rfl, rfl⟩

/-- C7: a message containing the newline character, appended to a fresh
LocalLogger, is read back split at each newline into at least two
separate messages, so the round-trip does not reproduce it. -/
theorem C7_newline_split (m : Msg) (path : String) (h : '\n' ∈ m) :
    (LocalLogger.Log { filename := path, file := [] } m).Messages
        = splitNl m ∧
    2 ≤ (splitNl m).length ∧
    (LocalLogger.Log { filename := path, file := [] } m).Messages
        ≠ [m] := by
  have hmsg : (LocalLogger.Log { filename := path, file := [] } m).Messages
      = splitNl m := by
    show getlineAll (openIfStream (some (([] : List Char) ++ m ++ ['\n'])))
        = splitNl m
    have harr : ([] : List Char) ++ m ++ ['\n'] = m ++ '\n' :: [] := by simp
    rw [harr]
    simp [getlineAll, openIfStream, getLines_append_nl, getLines]
  have hlen : 2 ≤ (splitNl m).length := by
    rw [splitNl_length]
    have hcount : m.count '\n' ≠ 0 := fun h0 => (List.count_eq_zero.mp h0) h
    omega
  refine ⟨hmsg, hlen, fun heq => ?_⟩
  rw [hmsg] at heq
  have := congrArg List.length heq
  simp only [List.length_cons, List.length_nil] at this
  omega

/-- C7 witness: the message a-newline-b is read back as the two messages
a and b, not as itself. -/
theorem C7_newline_split_witness :
    '\n' ∈ ['a', '\n', 'b'] ∧
    ((LocalLogger.Log { filename := "f", file := [] } ['a', '\n', 'b']).Messages
        = splitNl ['a', '\n', 'b'] ∧
     2 ≤ (splitNl ['a', '\n', 'b']).length ∧
     (LocalLogger.Log { filename := "f", file := [] } ['a', '\n', 'b']).Messages
        ≠ [['a', '\n', 'b']]) :=
  ⟨by decide, C7_newline_split ['a', '\n', 'b'] "f" (by decide)⟩

/-- C8: Messages never modifies the sink it is called on: the in-memory
logger's stored vector, and the file logger's filename and backing file
content, are all unchanged, and for any sink the state after a read is
the state before. -/
theorem C8_read_frame (l : InMemoryLogger) (f : LocalLogger) (s : Sink) :
    l.MessagesSt = (l.messages, l) ∧
    (l.MessagesSt).2.messages = l.messages ∧
    (f.MessagesSt).2.filename = f.filename ∧
    (f.MessagesSt).2.file = f.file ∧
    (Sink.MessagesSt s).2 = s :=
  ⟨rfl, rfl, rfl, rfl, rfl⟩

/-- C9: the append phase iterates messages in the outer loop and sinks
in the inner loop, so its event trace is message-major (message i goes
to every sink in collection order before message i+1 goes to any sink),
and each sink ends up having received the whole message list in the
original order exactly once. -/
theorem C9_append_order (sinks : List Sink) (msgs : List Msg) :
    appendPhaseTr sinks msgs
      = (sinks.map (fun s => logList s msgs),
         messageMajorTrace sinks.length msgs) := by
  simpa using appendPhaseTr_foldl msgs sinks []

/-- C10: when the backing file cannot be opened for reading, the stream
is failed, the getline loop runs zero times, and Messages silently
returns the empty sequence rather than failing or terminating. -/
theorem C10_read_fail_empty (cs : List Char) :
    (openIfStream none).good = false ∧
    getlineAll { good := false, contents := cs } = [] ∧
    LocalLogger.MessagesOf none = [] :=
  ⟨rfl, rfl, rfl⟩

/-- The whole run of main with a writable backing file: every sink reads
back the test set, so the process exits 0 with no report. -/
theorem runMain_ok : runMain = (0, none) := by decide

end Inheritance
